import Mathlib

/-!
Verification of the provider-factory, documentation-storage and pipeline-orchestration
layers of the RAG documentation generator.

The definitions below are a shallow embedding of the Python sources:
  modules/vector_db_factory.py, modules/llm_factory.py,
  utils/doc_storage.py, utils/cleanup.py,
  final-main/services/documentation_service.py.
Machine-level details (process environment, filesystem, wall clock, external
services) are made explicit parameters; the control flow and data handling of
each function follow the source line by line.
-/

namespace RagDoc

/-! ## Python semantics helpers -/

/-- The process environment: `os.getenv` returns `none` when the variable is unset. -/
def Env : Type := String → Option String

/-- Python truthiness of an `Optional[str]`: `None` and the empty string are falsy. -/
def pyTruthy : Option String → Bool
  | none => false
  | some s => !s.isEmpty

/-- Does the list `l` begin with the list `p`?  (Char-level model of `str.startswith`.) -/
def listStarts {α : Type} [DecidableEq α] : List α → List α → Bool
  | _, [] => true
  | [], _ :: _ => false
  | a :: l, b :: p => decide (a = b) && listStarts l p

/-- Model of Python `str.startswith`. -/
def strStarts (s pre : String) : Bool := listStarts s.data pre.data

/-- Model of Python `str.endswith`. -/
def strEnds (s suf : String) : Bool := listStarts s.data.reverse suf.data.reverse

/-- Split a character list at every occurrence of `sep`, keeping empty pieces
(model of Python `str.split(sep)` for a one-character separator). -/
def splitChars (sep : Char) : List Char → List Char → List (List Char)
  | [], acc => [acc.reverse]
  | c :: rest, acc =>
    if c = sep then acc.reverse :: splitChars sep rest []
    else splitChars sep rest (c :: acc)

/-- Model of Python `stem.split("_")`. -/
def splitUnder (s : String) : List String :=
  (splitChars '_' s.data []).map (fun l => ⟨l⟩)

/-- Model of Python `"_".join(parts)`. -/
def joinUnder : List String → String
  | [] => ""
  | [s] => s
  | s :: rest => s ++ "_" ++ joinUnder rest

/-- Model of Python `str.strip()`: drop whitespace from both ends. -/
def pyStrip (s : String) : String :=
  ⟨((s.data.dropWhile Char.isWhitespace).reverse.dropWhile Char.isWhitespace).reverse⟩

/-! ## modules/vector_db_factory.py -/

/-- A vector-database provider object, as constructed by the module-level registry.
Constructor fields hold the credential state read from the process environment
in each class's `__init__`. -/
inductive VectorDBProvider : Type
  | pinecone (api_key : Option String) (environment : String)
  | faiss
  | qdrant (url : String) (api_key : Option String)
  deriving DecidableEq, Repr

/-- `PineconeProvider.__init__`: reads PINECONE_API_KEY and PINECONE_ENV. -/
def mkPineconeProvider (env : Env) : VectorDBProvider :=
  .pinecone (env "PINECONE_API_KEY") ((env "PINECONE_ENV").getD "us-east-1-aws")

/-- `FaissProvider` holds no credentials. -/
def mkFaissProvider : VectorDBProvider := .faiss

/-- `QdrantProvider.__init__`: reads QDRANT_URL (defaulted) and QDRANT_API_KEY. -/
def mkQdrantProvider (env : Env) : VectorDBProvider :=
  .qdrant ((env "QDRANT_URL").getD "http://localhost:6333") (env "QDRANT_API_KEY")

/-- `is_configured` of each vector-database provider class. -/
def VectorDBProvider.is_configured : VectorDBProvider → Bool
  | .pinecone api_key _ => pyTruthy api_key
  | .faiss => true
  | .qdrant url _ => !url.isEmpty

/-- The module-level `_PROVIDERS` registry of vector_db_factory.py (insertion order). -/
def vectorDbProviders (env : Env) : List (String × VectorDBProvider) :=
  [("pinecone", mkPineconeProvider env),
   ("faiss", mkFaissProvider),
   ("qdrant", mkQdrantProvider env)]

/-- The two failure modes of provider resolution, with the exact `ValueError`
messages raised by the factories. -/
inductive ProviderError : Type
  | unsupported (msg : String)
  | notConfigured (msg : String)
  deriving DecidableEq, Repr

/-- Membership/lookup in a registry dictionary. -/
def lookupReg {α : Type} (l : List (String × α)) (k : String) : Option α :=
  (l.find? (fun p => p.1 == k)).map (fun p => p.2)

/-- `get_vector_database_provider`: unsupported-name check, then `is_configured` check. -/
def get_vector_database_provider (env : Env) (provider_name : String) :
    Except ProviderError VectorDBProvider :=
  match lookupReg (vectorDbProviders env) provider_name with
  | none => .error (.unsupported ("Unsupported vector database provider: " ++ provider_name))
  | some provider =>
    if !provider.is_configured then
      .error (.notConfigured
        ("Vector database provider '" ++ provider_name ++ "' is not properly configured"))
    else
      .ok provider

/-- `list_available_providers` of vector_db_factory.py. -/
def list_available_providers (env : Env) : List String :=
  (vectorDbProviders env).map (fun p => p.1)

/-- `get_configured_providers` of vector_db_factory.py. -/
def vdbConfiguredProviders (env : Env) : List String :=
  ((vectorDbProviders env).filter (fun p => p.2.is_configured)).map (fun p => p.1)

/-! ## modules/llm_factory.py -/

/-- An LLM provider object with the credential state read in `__init__`. -/
inductive LLMProvider : Type
  | gemini (api_key : Option String)
  | openai (api_key : Option String)
  | azureOpenai (api_key : Option String) (endpoint : Option String) (api_version : String)
      (deployment_name : Option String) (embedding_deployment : Option String)
  deriving DecidableEq, Repr

/-- `GeminiProvider.__init__`. -/
def mkGeminiProvider (env : Env) : LLMProvider := .gemini (env "GEMINI_API_KEY")

/-- `OpenAIProvider.__init__`. -/
def mkOpenAIProvider (env : Env) : LLMProvider := .openai (env "OPENAI_API_KEY")

/-- `AzureOpenAIProvider.__init__`. -/
def mkAzureOpenAIProvider (env : Env) : LLMProvider :=
  .azureOpenai (env "AZURE_OPENAI_API_KEY") (env "AZURE_OPENAI_ENDPOINT")
    ((env "AZURE_OPENAI_API_VERSION").getD "2024-02-01")
    (env "AZURE_OPENAI_DEPLOYMENT_NAME") (env "AZURE_OPENAI_EMBEDDING_DEPLOYMENT")

/-- `is_configured` of each LLM provider class; Azure requires key, endpoint and
deployment name together (`bool(a and b and c)`). -/
def LLMProvider.is_configured : LLMProvider → Bool
  | .gemini api_key => pyTruthy api_key
  | .openai api_key => pyTruthy api_key
  | .azureOpenai api_key endpoint _ deployment_name _ =>
      pyTruthy api_key && pyTruthy endpoint && pyTruthy deployment_name

/-- The module-level `_PROVIDERS` registry of llm_factory.py (insertion order). -/
def llmProviders (env : Env) : List (String × LLMProvider) :=
  [("gemini", mkGeminiProvider env),
   ("openai", mkOpenAIProvider env),
   ("azure_openai", mkAzureOpenAIProvider env)]

/-- `get_llm_provider`: unsupported-name check, then `is_configured` check. -/
def get_llm_provider (env : Env) (provider_name : String) :
    Except ProviderError LLMProvider :=
  match lookupReg (llmProviders env) provider_name with
  | none => .error (.unsupported ("Unsupported LLM provider: " ++ provider_name))
  | some provider =>
    if !provider.is_configured then
      .error (.notConfigured
        ("LLM provider '" ++ provider_name ++ "' is not properly configured"))
    else
      .ok provider

/-- `get_configured_providers` of llm_factory.py. -/
def llmConfiguredProviders (env : Env) : List String :=
  ((llmProviders env).filter (fun p => p.2.is_configured)).map (fun p => p.1)

/-! ## Vector-database `initialize` methods, with the external service made explicit -/

/-- The remote Pinecone account state: the set of existing indexes (`pc.list_indexes()`). -/
structure PineconeService where
  indexes : List String
  deriving DecidableEq, Repr

/-- Effect of `pc.create_index(name, ...)` on the remote account. -/
def pineconeCreateIndex (svc : PineconeService) (index_name : String) : PineconeService :=
  { svc with indexes := svc.indexes ++ [index_name] }

/-- PineconeProvider's index-setup method: fails when not configured, creates the
index only when absent from `list_indexes()`, and returns the index name. -/
def pineconeInit (api_key : Option String) (svc : PineconeService) (index_name : String) :
    Except String (String × PineconeService) :=
  if !(pyTruthy api_key) then
    .error "Pinecone API key not configured"
  else
    let existing_indexes := svc.indexes
    if index_name ∉ existing_indexes then
      .ok (index_name, pineconeCreateIndex svc index_name)
    else
      .ok (index_name, svc)

/-- A set of directories, modelling the local filesystem for FAISS. -/
structure DirSet where
  dirs : List String
  deriving DecidableEq, Repr

/-- Effect of `os.makedirs(path, exist_ok=True)`. -/
def makedirsExistOk (fs : DirSet) (path : String) : DirSet :=
  if path ∈ fs.dirs then fs else { dirs := fs.dirs ++ [path] }

/-- POSIX `os.path.join` for a relative second component. -/
def pathJoin (a b : String) : String := a ++ "/" ++ b

/-- FaissProvider's index-setup method: ensure the directory exists and return the
joined index path. -/
def faissInit (fs : DirSet) (index_path index_name : String) : String × DirSet :=
  let fs' := makedirsExistOk fs index_path
  (pathJoin index_path index_name, fs')

/-- The remote Qdrant state: the set of existing collections. -/
structure QdrantService where
  collections : List String
  deriving DecidableEq, Repr

/-- Effect of `client.create_collection(name, ...)`. -/
def qdrantCreateCollection (svc : QdrantService) (collection_name : String) : QdrantService :=
  { svc with collections := svc.collections ++ [collection_name] }

/-- QdrantProvider's collection-setup method: creates the collection only when it
is absent and returns the collection name. -/
def qdrantInit (svc : QdrantService) (collection_name : String) : String × QdrantService :=
  if collection_name ∉ svc.collections then
    (collection_name, qdrantCreateCollection svc collection_name)
  else
    (collection_name, svc)

/-! ## Association tables: Python dicts and directory listings -/

/-- Update the binding of `k` (replace in place, append when absent), as a Python
dict assignment or a file write into a directory behaves. -/
def tableSet {α : Type} : List (String × α) → String → α → List (String × α)
  | [], k, v => [(k, v)]
  | e :: t, k, v => if e.1 = k then (k, v) :: t else e :: tableSet t k v

/-- Look up the binding of `k`. -/
def tableGet {α : Type} : List (String × α) → String → Option α
  | [], _ => none
  | e :: t, k => if e.1 = k then some e.2 else tableGet t k

/-- Key membership. -/
def tableHas {α : Type} (t : List (String × α)) (k : String) : Bool :=
  (tableGet t k).isSome

/-- Delete the binding of `k`, as `Path.unlink` or `del d[k]` behaves. -/
def tableRemove {α : Type} : List (String × α) → String → List (String × α)
  | [], _ => []
  | e :: t, k => if e.1 = k then tableRemove t k else e :: tableRemove t k

/-! ## utils/doc_storage.py: data model -/

/-- A JSON-representable metadata value. -/
inductive MetaVal : Type
  | vstr (s : String)
  | vnat (n : Nat)
  | vbool (b : Bool)
  | vlist (l : List String)
  | vnone
  deriving DecidableEq, Repr

/-- A Python dict of metadata, insertion-ordered. -/
abbrev MetaDict : Type := List (String × MetaVal)

/-- Python `dict.update`: fold the assignments left to right. -/
def dictUpdate (d : MetaDict) (upd : MetaDict) : MetaDict :=
  upd.foldl (fun acc e => tableSet acc e.1 e.2) d

/-- A file in the repositories directory: its content and its modification time. -/
structure DocFile where
  content : String
  mtime : Nat
  deriving DecidableEq, Repr

/-- The two directories owned by DocumentationStorage: Markdown artifacts (with
latest markers) and JSON metadata sidecars, each as filename-keyed tables. -/
structure DocStorage where
  repos : List (String × DocFile)
  metadata : List (String × MetaDict)
  deriving DecidableEq, Repr

/-- The file-path dictionary returned by `save_documentation`. -/
structure SaveResult where
  doc_file : String
  metadata_file : String
  doc_filename : String
  metadata_filename : String
  deriving DecidableEq, Repr

/-- `_update_latest_link`: write the artifact filename into the marker file. -/
def update_latest_link (st : DocStorage) (repo_name doc_filename : String) (now : Nat) :
    DocStorage :=
  { st with repos := tableSet st.repos (repo_name ++ "_latest.md") ⟨doc_filename, now⟩ }

/-- `save_documentation`: build the timestamped filenames, mutate the caller's
metadata dict with the four generated keys, write the artifact, write the
sidecar, refresh the latest marker, and return the path dictionary.  The wall
clock is explicit: `timestamp` is `strftime("%Y%m%d_%H%M%S")`, `iso_now` is
`isoformat()`, `now` is the resulting file modification time. -/
def save_documentation (st : DocStorage) (base_dir repo_name documentation : String)
    (metadata : MetaDict) (timestamp iso_now : String) (now : Nat) :
    SaveResult × MetaDict × DocStorage :=
  let doc_filename := repo_name ++ "_" ++ timestamp ++ ".md"
  let metadata_filename := repo_name ++ "_" ++ timestamp ++ "_metadata.json"
  let doc_path := base_dir ++ "/repositories/" ++ doc_filename
  let metadata_path := base_dir ++ "/metadata/" ++ metadata_filename
  let md := dictUpdate metadata
    [("generated_at", MetaVal.vstr iso_now),
     ("documentation_file", MetaVal.vstr doc_filename),
     ("file_size", MetaVal.vnat documentation.utf8ByteSize),
     ("doc_path", MetaVal.vstr doc_path)]
  let st1 : DocStorage := { st with repos := tableSet st.repos doc_filename ⟨documentation, now⟩ }
  let st2 : DocStorage := { st1 with metadata := tableSet st1.metadata metadata_filename md }
  let st3 := update_latest_link st2 repo_name doc_filename now
  (⟨doc_path, metadata_path, doc_filename, metadata_filename⟩, md, st3)

/-- Python `max(files, key=mtime)`: first maximal element. -/
def maxByMtime : List (String × DocFile) → Option (String × DocFile)
  | [] => none
  | x :: xs => some (xs.foldl (fun best e => if e.2.mtime > best.2.mtime then e else best) x)

/-- Does `name` match the shell glob `pre*suf` (with a non-overlapping star)? -/
def globMatch (pre suf name : String) : Bool :=
  strStarts name pre && strEnds name suf &&
    decide (pre.length + suf.length ≤ name.length)

/-- `get_documentation_by_repo`: resolve the latest marker first; when the marker
or its target is missing, fall back to the most-recently-modified file matching
the repository glob. -/
def get_documentation_by_repo (st : DocStorage) (repo_name : String) : Option String :=
  let latest_link := repo_name ++ "_latest.md"
  let viaMarker : Option String :=
    match tableGet st.repos latest_link with
    | some marker =>
      let target_filename := pyStrip marker.content
      match tableGet st.repos target_filename with
      | some f => some f.content
      | none => none
    | none => none
  match viaMarker with
  | some c => some c
  | none =>
    let matching_files := st.repos.filter (fun e => globMatch (repo_name ++ "_") ".md" e.1)
    match maxByMtime matching_files with
    | none => none
    | some e => some e.2.content

/-! ## core/config.py: application settings -/

/-- The pydantic Settings object.  `llm_temperature` is modelled as a rational,
which is exact for every value the service reads but never modifies. -/
structure Settings where
  host : String
  port : Nat
  debug : Bool
  allowed_origins : List String
  allowed_hosts : List String
  vector_db_provider : String
  pinecone_api_key : Option String
  pinecone_env : Option String
  default_index_name : String
  qdrant_url : Option String
  qdrant_api_key : Option String
  qdrant_collection_name : String
  faiss_index_path : String
  faiss_index_name : String
  llm_provider : String
  gemini_api_key : Option String
  openai_api_key : Option String
  azure_openai_api_key : Option String
  azure_openai_endpoint : Option String
  azure_openai_api_version : String
  azure_openai_deployment_name : Option String
  azure_openai_embedding_deployment : Option String
  llm_temperature : Rat
  chunk_size : Nat
  chunk_overlap : Nat
  max_file_size_mb : Nat
  max_repo_size_mb : Nat
  processing_timeout : Nat
  temp_directory : String
  repo_directory : String
  docs_output_directory : String
  deriving DecidableEq, Repr

/-! ## final-main/services/documentation_service.py -/

/-- The typed failure domains of the eight pipeline stages (core/exceptions.py). -/
inductive PipelineError : Type
  | repositoryError (msg : String)
  | processingError (msg : String)
  | vectorDatabaseError (msg : String)
  | llmError (msg : String)
  deriving DecidableEq, Repr

/-- Outcomes of the external collaborators awaited by the orchestrator: the git
clone, the two validators, the chunker (per glob pattern), the vector-database
calls, the chain builder, the generator, and whether the best-effort directory
cleanup itself fails. -/
structure PipelineWorld (Chunk : Type) where
  clone_result : Except String Unit
  validate_size_result : Except String Unit
  validate_types_result : Except String Unit
  load_and_split : String → Except String (List Chunk)
  vdb_init_result : Except String String
  ingest_result : Except String Unit
  rag_result : Except String Unit
  gen_result : Except String String
  cleanup_fails : Bool

/-- The set of directories under the service's repository directory. -/
structure TempFs where
  dirs : List String
  deriving DecidableEq, Repr

/-- `shutil.rmtree`: remove a directory and everything beneath it. -/
def removeTree (fs : TempFs) (path : String) : TempFs :=
  { dirs := fs.dirs.filter (fun d => !(d == path || strStarts d (path ++ "/"))) }

/-- `_clone_repository`: create the mkdtemp workspace under the repository
directory, then clone into its `repo` subdirectory; a clone failure is
re-raised as RepositoryError (the workspace has already been created). -/
def clone_repository {Chunk : Type} (w : PipelineWorld Chunk) (fs : TempFs)
    (temp_dir : String) : Except PipelineError String × TempFs :=
  let fs1 : TempFs := { dirs := fs.dirs ++ [temp_dir] }
  let repo_path := temp_dir ++ "/repo"
  match w.clone_result with
  | .ok _ => (.ok repo_path, { dirs := fs1.dirs ++ [repo_path] })
  | .error e => (.error (.repositoryError ("Failed to clone repository: " ++ e)), fs1)

/-- `_cleanup_repository`: best effort — a failure is logged and swallowed. -/
def cleanup_repository (fs : TempFs) (cleanup_fails : Bool) (repo_path : String) : TempFs :=
  if cleanup_fails then fs else removeTree fs repo_path

/-- `_validate_repository`: size check then file-type check, each failure
re-raised as ProcessingError. -/
def validate_repository {Chunk : Type} (w : PipelineWorld Chunk) :
    Except PipelineError Unit :=
  match w.validate_size_result with
  | .error e => .error (.processingError ("Repository validation failed: " ++ e))
  | .ok _ =>
    match w.validate_types_result with
    | .error e => .error (.processingError ("Repository validation failed: " ++ e))
    | .ok _ => .ok ()

/-- `_load_and_split_with_extensions`: normalize each extension to a leading
dot, build the glob pattern, and skip (log-and-continue) any extension whose
chunking call fails, collecting all other chunks in order. -/
def load_and_split_with_extensions {Chunk : Type}
    (ls : String → Except String (List Chunk)) (file_extensions : List String) :
    List Chunk :=
  file_extensions.foldl (fun all_chunks extension =>
    let ext := if strStarts extension "." then extension else "." ++ extension
    let glob_pattern := "**/*" ++ ext
    match ls glob_pattern with
    | .ok chunks => all_chunks ++ chunks
    | .error _ => all_chunks) []

/-- `_process_repository`: run the per-extension chunking and escalate an empty
combined result to a ProcessingError (the inner raise is re-wrapped by the
stage's own handler, which prepends its context message). -/
def process_repository {Chunk : Type}
    (ls : String → Except String (List Chunk)) (file_extensions : List String) :
    Except PipelineError (List Chunk) :=
  let chunks := load_and_split_with_extensions ls file_extensions
  if chunks.isEmpty then
    .error (.processingError
      ("Failed to process repository files: " ++ "No processable files found in repository"))
  else
    .ok chunks

/-- Stage 4, with the external vector-database call abstracted as its outcome. -/
def run_vdb_setup {Chunk : Type} (w : PipelineWorld Chunk) : Except PipelineError String :=
  match w.vdb_init_result with
  | .ok db_id => .ok db_id
  | .error e => .error (.vectorDatabaseError ("Failed to initialize vector database: " ++ e))

/-- Stage 5. -/
def run_ingest {Chunk : Type} (w : PipelineWorld Chunk) : Except PipelineError Unit :=
  match w.ingest_result with
  | .ok _ => .ok ()
  | .error e => .error (.vectorDatabaseError ("Failed to ingest to vector database: " ++ e))

/-- Stage 6. -/
def run_build_rag {Chunk : Type} (w : PipelineWorld Chunk) : Except PipelineError Unit :=
  match w.rag_result with
  | .ok _ => .ok ()
  | .error e => .error (.llmError ("Failed to build RAG chain: " ++ e))

/-- Stage 7. -/
def run_generate {Chunk : Type} (w : PipelineWorld Chunk) : Except PipelineError String :=
  match w.gen_result with
  | .ok documentation => .ok documentation
  | .error e => .error (.llmError ("Failed to generate documentation: " ++ e))

/-- The successful return dictionary of `generate_documentation`. -/
structure GenOutput where
  documentation : String
  chunks_processed : Nat
  repo_name : String
  storage_info : SaveResult
  deriving DecidableEq, Repr

/-- Stages 2 through 8, which run only once the clone has produced a repository
path; returns the pipeline outcome and the resulting documentation storage. -/
def run_after_clone {Chunk : Type} (w : PipelineWorld Chunk) (st : DocStorage)
    (docs_dir repo_name task_id : String) (file_extensions : List String)
    (include_diagrams : Bool) (ts iso : String) (now elapsed : Nat) :
    Except PipelineError GenOutput × DocStorage :=
  match validate_repository w with
  | .error e => (.error e, st)
  | .ok _ =>
    match process_repository w.load_and_split file_extensions with
    | .error e => (.error e, st)
    | .ok chunks =>
      match run_vdb_setup w with
      | .error e => (.error e, st)
      | .ok _db_id =>
        match run_ingest w with
        | .error e => (.error e, st)
        | .ok _ =>
          match run_build_rag w with
          | .error e => (.error e, st)
          | .ok _ =>
            match run_generate w with
            | .error e => (.error e, st)
            | .ok documentation =>
              let meta : MetaDict :=
                [("task_id", MetaVal.vstr task_id),
                 ("processing_time", MetaVal.vnat elapsed),
                 ("chunks_processed", MetaVal.vnat chunks.length),
                 ("file_extensions", MetaVal.vlist file_extensions),
                 ("include_diagrams", MetaVal.vbool include_diagrams),
                 ("repo_url", MetaVal.vnone)]
              let saved := save_documentation st docs_dir repo_name documentation
                meta ts iso now
              (.ok ⟨documentation, chunks.length, repo_name, saved.1⟩, saved.2.2)

/-- `generate_documentation`: apply the truthy per-call provider overrides,
run the eight stages, and in the `finally` block restore both provider
settings and best-effort-remove the cloned repository path when it was set.
Returns (outcome, settings after the call, storage after the call, filesystem
after the call). -/
def generate_documentation {Chunk : Type} (w : PipelineWorld Chunk)
    (settings : Settings) (st : DocStorage) (fs : TempFs) (temp_dir : String)
    (repo_name task_id : String) (file_extensions : List String)
    (include_diagrams : Bool) (vector_db_provider llm_provider : Option String)
    (ts iso : String) (now elapsed : Nat) :
    Except PipelineError GenOutput × Settings × DocStorage × TempFs :=
  let original_vector_db_provider := settings.vector_db_provider
  let original_llm_provider := settings.llm_provider
  let s1 := match vector_db_provider with
    | some v => if !v.isEmpty then { settings with vector_db_provider := v } else settings
    | none => settings
  let s2 := match llm_provider with
    | some v => if !v.isEmpty then { s1 with llm_provider := v } else s1
    | none => s1
  let s3 := { s2 with vector_db_provider := original_vector_db_provider,
                      llm_provider := original_llm_provider }
  match clone_repository w fs temp_dir with
  | (.error e, fs1) => (.error e, s3, st, fs1)
  | (.ok repo_path, fs1) =>
    let out := run_after_clone w st settings.docs_output_directory repo_name task_id
      file_extensions include_diagrams ts iso now elapsed
    (out.1, s3, out.2, cleanup_repository fs1 w.cleanup_fails repo_path)

/-- The default Settings values of core/config.py. -/
def defaultSettings : Settings :=
  { host := "0.0.0.0", port := 8000, debug := false,
    allowed_origins := ["http://localhost:3000", "http://localhost:8080"],
    allowed_hosts := ["localhost", "127.0.0.1"],
    vector_db_provider := "pinecone", pinecone_api_key := none, pinecone_env := none,
    default_index_name := "code-docs", qdrant_url := some "http://localhost:6333",
    qdrant_api_key := none, qdrant_collection_name := "code-docs",
    faiss_index_path := "./faiss_indexes", faiss_index_name := "code-docs",
    llm_provider := "gemini", gemini_api_key := none, openai_api_key := none,
    azure_openai_api_key := none, azure_openai_endpoint := none,
    azure_openai_api_version := "2024-02-01", azure_openai_deployment_name := none,
    azure_openai_embedding_deployment := none, llm_temperature := 0,
    chunk_size := 1000, chunk_overlap := 200, max_file_size_mb := 10,
    max_repo_size_mb := 500, processing_timeout := 600,
    temp_directory := "./temp", repo_directory := "./dummy_repo",
    docs_output_directory := "./docs" }

/-- A run whose clone fails and every other collaborator succeeds. -/
def leakWorldFail : PipelineWorld Unit :=
  { clone_result := .error "boom", validate_size_result := .ok (),
    validate_types_result := .ok (), load_and_split := fun _ => .ok [()],
    vdb_init_result := .ok "db", ingest_result := .ok (),
    rag_result := .ok (), gen_result := .ok "# Doc", cleanup_fails := false }

/-- A run in which every stage succeeds. -/
def leakWorldOk : PipelineWorld Unit := { leakWorldFail with clone_result := .ok () }

/-! ## utils/doc_storage.py: cleanup_old_files -/

/-- `Path.stem` of a filename ending in ".md": the name without its suffix. -/
def mdStem (fname : String) : String := ⟨fname.data.take (fname.data.length - 3)⟩

/-- Does a filename match pathlib's glob "*.md"?  Pathlib's glob matches
dot-initial names as well, so this is exactly the suffix test. -/
def matchesStarMd (name : String) : Bool :=
  strEnds name ".md"

/-- The repository name derived from an artifact stem: split on underscores,
require at least three parts (repo, date, time), and rejoin all but the last
two; stems with fewer parts are skipped entirely. -/
def deriveRepoGroup (stem : String) : Option String :=
  let name_parts := splitUnder stem
  if 3 ≤ name_parts.length then
    some (joinUnder (name_parts.take (name_parts.length - 2)))
  else
    none

/-- The group key `cleanup_old_files` assigns to a repos-directory file: only
globbed `.md` files that are not latest markers and whose stem parses. -/
def cleanupGroupOf (fname : String) : Option String :=
  if matchesStarMd fname && !(strEnds fname "_latest.md") then
    deriveRepoGroup (mdStem fname)
  else
    none

/-- Append a file to its group, creating the group at the end on first sight
(Python dict insertion order). -/
def addToGroup (groups : List (String × List (String × DocFile)))
    (g : String) (f : String × DocFile) : List (String × List (String × DocFile)) :=
  match groups with
  | [] => [(g, [f])]
  | e :: rest => if e.1 = g then (g, e.2 ++ [f]) :: rest else e :: addToGroup rest g f

/-- One step of the grouping pass: file `e` joins its group, or is skipped. -/
def groupStep (groups : List (String × List (String × DocFile))) (e : String × DocFile) :
    List (String × List (String × DocFile)) :=
  match cleanupGroupOf e.1 with
  | some repo => addToGroup groups repo e
  | none => groups

/-- The `repo_files` grouping built by `cleanup_old_files` before any deletion. -/
def buildRepoGroups (st : DocStorage) : List (String × List (String × DocFile)) :=
  st.repos.foldl groupStep []

/-- The comparison of the cleanup sort: newest first by modification time. -/
def newestFirst (a b : String × DocFile) : Bool := decide (b.2.mtime ≤ a.2.mtime)

/-- The metadata sidecar filename paired with an artifact stem. -/
def sidecarName (stem : String) : String := stem ++ "_metadata.json"

/-- Delete one old artifact and, when present, its metadata sidecar, counting
each file actually removed. -/
def removeOldFile (acc : Nat × DocStorage) (old : String × DocFile) : Nat × DocStorage :=
  let st1 : DocStorage := { acc.2 with repos := tableRemove acc.2.repos old.1 }
  let cnt1 := acc.1 + 1
  let metadata_file := sidecarName (mdStem old.1)
  if tableHas st1.metadata metadata_file then
    (cnt1 + 1, { st1 with metadata := tableRemove st1.metadata metadata_file })
  else
    (cnt1, st1)

/-- Prune one repository group: when it holds more than `keep_versions` files,
sort newest first and delete everything past the first `keep_versions`. -/
def cleanupGroup (keep_versions : Nat) (acc : Nat × DocStorage)
    (files : List (String × DocFile)) : Nat × DocStorage :=
  if keep_versions < files.length then
    ((files.mergeSort newestFirst).drop keep_versions).foldl removeOldFile acc
  else
    acc

/-- `cleanup_old_files`: group the artifact files by repository name, prune each
oversized group oldest-first together with the paired sidecars, and return the
number of files removed. -/
def cleanup_old_files (st : DocStorage) (keep_versions : Nat) : Nat × DocStorage :=
  (buildRepoGroups st).foldl (fun acc grp => cleanupGroup keep_versions acc grp.2) (0, st)

/-- The artifact files `cleanup_old_files st k` deletes, in deletion order. -/
def deletionList (st : DocStorage) (keep_versions : Nat) : List (String × DocFile) :=
  ((buildRepoGroups st).map (fun grp =>
    if keep_versions < grp.2.length then (grp.2.mergeSort newestFirst).drop keep_versions
    else [])).flatten

/-- The files of `st.repos` that `cleanup_old_files` sorts into group `g`. -/
def filterGroup (st : DocStorage) (g : String) : List (String × DocFile) :=
  st.repos.filter (fun e => cleanupGroupOf e.1 == some g)

/-! ## Grouping lemmas -/

/-- Combine an optional already-collected group list with further members. -/
def optCat (o : Option (List (String × DocFile))) (fs : List (String × DocFile)) :
    Option (List (String × DocFile)) :=
  match o, fs with
  | none, [] => none
  | none, fs => some fs
  | some fs0, fs => some (fs0 ++ fs)

/-- A storage with three artifacts of repository "r" (distinct mtimes) and
their three sidecars. -/
def cleanupDemoState : DocStorage :=
  ⟨[("r_20250101_120000.md", ⟨"a", 1⟩),
    ("r_20250102_120000.md", ⟨"b", 2⟩),
    ("r_20250103_120000.md", ⟨"c", 3⟩)],
   [("r_20250101_120000_metadata.json", []),
    ("r_20250102_120000_metadata.json", []),
    ("r_20250103_120000_metadata.json", [])]⟩

/-- The group the cleanup pass builds for "r" on `cleanupDemoState`. -/
def cleanupDemoGroup : List (String × DocFile) :=
  [("r_20250101_120000.md", ⟨"a", 1⟩),
   ("r_20250102_120000.md", ⟨"b", 2⟩),
   ("r_20250103_120000.md", ⟨"c", 3⟩)]

theorem tableGet_set_self {α : Type} (t : List (String × α)) (k : String) (v : α) :
    tableGet (tableSet t k v) k = some v := by
  induction t with
  | nil => simp [tableSet, tableGet]
  | cons e t ih =>
    by_cases h : e.1 = k
    · simp [tableSet, tableGet, h]
    · simp [tableSet, tableGet, h, ih]

theorem tableGet_set_ne {α : Type} (t : List (String × α)) (k k' : String) (v : α)
    (h : k' ≠ k) : tableGet (tableSet t k v) k' = tableGet t k' := by
  induction t with
  | nil => simp [tableSet, tableGet, h, Ne.symm h]
  | cons e t ih =>
    by_cases he : e.1 = k
    · subst he
      simp [tableSet, tableGet, h, Ne.symm h]
    · by_cases he' : e.1 = k'
      · simp [tableSet, tableGet, he, he', h]
      · simp [tableSet, tableGet, he, he', ih]

theorem tableGet_remove_self {α : Type} (t : List (String × α)) (k : String) :
    tableGet (tableRemove t k) k = none := by
  induction t with
  | nil => simp [tableRemove, tableGet]
  | cons e t ih =>
    by_cases h : e.1 = k
    · simp [tableRemove, h, ih]
    · simp [tableRemove, tableGet, h, ih]

theorem tableGet_remove_ne {α : Type} (t : List (String × α)) (k k' : String)
    (h : k' ≠ k) : tableGet (tableRemove t k) k' = tableGet t k' := by
  induction t with
  | nil => simp [tableRemove]
  | cons e t ih =>
    by_cases he : e.1 = k
    · subst he
      simp [tableRemove, tableGet, Ne.symm h, ih]
    · by_cases he' : e.1 = k'
      · simp [tableRemove, tableGet, he, he', h]
      · simp [tableRemove, tableGet, he, he', ih]

/-- A strftime artifact filename never coincides with the latest marker unless
the timestamp token is literally "latest". -/
theorem docFilename_ne_latest (repo ts : String) (h : ts ≠ "latest") :
    repo ++ "_" ++ ts ++ ".md" ≠ repo ++ "_latest.md" := by
  intro he
  apply h
  have hd : (repo ++ "_" ++ ts ++ ".md").data = (repo ++ "_latest.md").data := by rw [he]
  simp only [String.data_append] at hd
  have h2 : ("_" : String).data ++ (ts.data ++ (".md" : String).data)
      = ("_latest.md" : String).data := by
    have hd2 : repo.data ++ (("_" : String).data ++ (ts.data ++ (".md" : String).data))
        = repo.data ++ ("_latest.md" : String).data := by
      simpa [List.append_assoc] using hd
    exact List.append_cancel_left hd2
  have h3 : ts.data ++ (".md" : String).data
      = ("latest" : String).data ++ (".md" : String).data := by
    simp only [show ("_" : String).data = ['_'] from rfl,
      show ("_latest.md" : String).data
        = '_' :: (("latest" : String).data ++ (".md" : String).data) from rfl] at h2
    injection h2
  exact String.ext (List.append_cancel_right h3)

/-! ## Claim C1 -/

/-- C1: for both factories, resolution succeeds returning the registered provider
iff the name is a registry key whose provider reports configured; a name outside
the registry fails with the unsupported-provider error and a registered but
unconfigured provider fails with the not-configured error. -/
theorem provider_resolution_correct (env : Env) (name : String) :
    ((∃ p, get_vector_database_provider env name = .ok p) ↔
       (∃ p, lookupReg (vectorDbProviders env) name = some p ∧ p.is_configured = true)) ∧
    (∀ p, lookupReg (vectorDbProviders env) name = some p → p.is_configured = true →
       get_vector_database_provider env name = .ok p) ∧
    (lookupReg (vectorDbProviders env) name = none →
       get_vector_database_provider env name =
         .error (.unsupported ("Unsupported vector database provider: " ++ name))) ∧
    (∀ p, lookupReg (vectorDbProviders env) name = some p → p.is_configured = false →
       get_vector_database_provider env name =
         .error (.notConfigured
           ("Vector database provider '" ++ name ++ "' is not properly configured"))) ∧
    ((∃ q, get_llm_provider env name = .ok q) ↔
       (∃ q, lookupReg (llmProviders env) name = some q ∧ q.is_configured = true)) ∧
    (∀ q, lookupReg (llmProviders env) name = some q → q.is_configured = true →
       get_llm_provider env name = .ok q) ∧
    (lookupReg (llmProviders env) name = none →
       get_llm_provider env name =
         .error (.unsupported ("Unsupported LLM provider: " ++ name))) ∧
    (∀ q, lookupReg (llmProviders env) name = some q → q.is_configured = false →
       get_llm_provider env name =
         .error (.notConfigured
           ("LLM provider '" ++ name ++ "' is not properly configured"))) := by
  unfold get_vector_database_provider get_llm_provider
  rcases hv : lookupReg (vectorDbProviders env) name with _ | p <;>
    rcases hl : lookupReg (llmProviders env) name with _ | q
  · simp
  · rcases hq : q.is_configured <;> simp [hq]
  · rcases hp : p.is_configured <;> simp [hp]
  · rcases hp : p.is_configured <;> rcases hq : q.is_configured <;> simp [hp, hq]

/-- Witness for C1: on an empty environment, resolving "faiss" succeeds and
resolving the unknown LLM name "mistral" fails as unsupported. -/
theorem provider_resolution_correct_witness :
    get_vector_database_provider (fun _ => none) "faiss" = .ok VectorDBProvider.faiss ∧
    get_llm_provider (fun _ => none) "mistral" =
      .error (.unsupported ("Unsupported LLM provider: " ++ "mistral")) := by
  refine ⟨(provider_resolution_correct (fun _ => none) "faiss").2.1
      VectorDBProvider.faiss rfl rfl,
    (provider_resolution_correct (fun _ => none) "mistral").2.2.2.2.2.2.1 rfl⟩

/-! ## Claim C9 -/

/-- C9: in every process environment, resolving the vector-DB name "faiss"
succeeds (in particular it never fails as not-configured) and "faiss" is listed
among the configured providers, because the FAISS provider requires no
credentials. -/
theorem faiss_always_configured (env : Env) :
    get_vector_database_provider env "faiss" = .ok VectorDBProvider.faiss ∧
    VectorDBProvider.is_configured VectorDBProvider.faiss = true ∧
    "faiss" ∈ vdbConfiguredProviders env := by
  refine ⟨rfl, rfl, ?_⟩
  have hm : ("faiss", VectorDBProvider.faiss) ∈
      (vectorDbProviders env).filter (fun p => p.2.is_configured) := by
    apply List.mem_filter.2
    refine ⟨?_, rfl⟩
    simp [vectorDbProviders, mkFaissProvider]
  exact List.mem_map.2 ⟨("faiss", VectorDBProvider.faiss), hm, rfl⟩

/-! ## Claim C7 -/

/-- C7: for each vector-DB provider, the initialization call is idempotent — a
second call with the same logical name does not error, returns the same
identifier, leaves the service state unchanged, and when the target already
exists the first call creates nothing. -/
theorem vdb_init_idempotent (api_key : Option String) (hconf : pyTruthy api_key = true)
    (svc : PineconeService) (fs : DirSet) (qsvc : QdrantService)
    (index_name index_path collection_name : String) :
    (∃ svc1, pineconeInit api_key svc index_name = .ok (index_name, svc1) ∧
       pineconeInit api_key svc1 index_name = .ok (index_name, svc1) ∧
       index_name ∈ svc1.indexes ∧
       (index_name ∈ svc.indexes → svc1 = svc)) ∧
    (∃ fs1, faissInit fs index_path index_name = (pathJoin index_path index_name, fs1) ∧
       faissInit fs1 index_path index_name = (pathJoin index_path index_name, fs1)) ∧
    (∃ q1, qdrantInit qsvc collection_name = (collection_name, q1) ∧
       qdrantInit q1 collection_name = (collection_name, q1) ∧
       collection_name ∈ q1.collections ∧
       (collection_name ∈ qsvc.collections → q1 = qsvc)) := by
  refine ⟨?_, ?_, ?_⟩
  · by_cases hmem : index_name ∈ svc.indexes
    · refine ⟨svc, ?_, ?_, hmem, fun _ => rfl⟩ <;>
        simp [pineconeInit, hconf, hmem]
    · refine ⟨pineconeCreateIndex svc index_name, ?_, ?_, ?_, fun h => absurd h hmem⟩
      · simp [pineconeInit, hconf, hmem]
      · simp [pineconeInit, hconf, pineconeCreateIndex]
      · simp [pineconeCreateIndex]
  · refine ⟨makedirsExistOk fs index_path, rfl, ?_⟩
    unfold faissInit
    by_cases h : index_path ∈ fs.dirs
    · simp [makedirsExistOk, h]
    · simp [makedirsExistOk, h]
  · by_cases hmem : collection_name ∈ qsvc.collections
    · refine ⟨qsvc, ?_, ?_, hmem, fun _ => rfl⟩ <;>
        simp [qdrantInit, hmem]
    · refine ⟨qdrantCreateCollection qsvc collection_name, ?_, ?_, ?_,
        fun h => absurd h hmem⟩
      · simp [qdrantInit, hmem]
      · simp [qdrantInit, qdrantCreateCollection]
      · simp [qdrantCreateCollection]

/-- Witness for C7: a configured Pinecone key and concrete names. -/
theorem vdb_init_idempotent_witness :
    pyTruthy (some "key") = true ∧
    (∃ svc1, pineconeInit (some "key") ⟨[]⟩ "code-docs" = .ok ("code-docs", svc1) ∧
       pineconeInit (some "key") svc1 "code-docs" = .ok ("code-docs", svc1) ∧
       "code-docs" ∈ svc1.indexes ∧
       ("code-docs" ∈ PineconeService.indexes ⟨[]⟩ → svc1 = ⟨[]⟩)) := by
  refine ⟨by decide, ?_⟩
  exact (vdb_init_idempotent (some "key") (by decide) ⟨[]⟩ ⟨[]⟩ ⟨[]⟩
    "code-docs" "./faiss_indexes" "code-docs").1

/-! ## Claim C3 -/

/-- C3: saving documentation and then reading the latest documentation for the
same repository returns exactly the saved body.  The two side conditions record
that the strftime timestamp token is not the literal "latest" and that the
generated filename carries no surrounding whitespace (both always hold for
`%Y%m%d_%H%M%S` timestamps and repository names without leading whitespace). -/
theorem save_get_roundtrip (st : DocStorage) (base_dir repo_name documentation : String)
    (metadata : MetaDict) (ts iso : String) (now : Nat)
    (hts : ts ≠ "latest")
    (hstrip : pyStrip (repo_name ++ "_" ++ ts ++ ".md") = repo_name ++ "_" ++ ts ++ ".md") :
    get_documentation_by_repo
      (save_documentation st base_dir repo_name documentation metadata ts iso now).2.2
      repo_name = some documentation := by
  have hne := docFilename_ne_latest repo_name ts hts
  unfold save_documentation update_latest_link get_documentation_by_repo
  simp only []
  rw [tableGet_set_self]
  simp only [hstrip]
  rw [tableGet_set_ne _ _ _ _ hne, tableGet_set_self]

/-- Witness for C3 at a concrete state, repository name and body. -/
theorem save_get_roundtrip_witness :
    get_documentation_by_repo
      (save_documentation ⟨[], []⟩ "/docs" "repo" "hello world" []
        "20250101_120000" "2025-01-01T12:00:00" 7).2.2
      "repo" = some "hello world" :=
  save_get_roundtrip ⟨[], []⟩ "/docs" "repo" "hello world" []
    "20250101_120000" "2025-01-01T12:00:00" 7 (by decide) (by decide)

/-! ## Claim C10 -/

/-- C10 as stated is false: `save_documentation` overwrites a caller-supplied
metadata entry when its key is one of the four generated keys.  Concretely, a
caller-supplied "file_size" entry does not keep its value. -/
theorem save_metadata_overwrites_caller_key :
    tableGet ((save_documentation ⟨[], []⟩ "/docs" "repo" "body"
        [("file_size", MetaVal.vstr "untouched")]
        "20250101_120000" "2025-01-01T12:00:00" 0).2.1)
      "file_size" ≠ some (MetaVal.vstr "untouched") := by decide

/-- C10 (amended): after a call to `save_documentation` the metadata dict
additionally contains generated_at, documentation_file, file_size and doc_path
with the generated values, and every caller-supplied key other than those four
keeps its value. -/
theorem save_metadata_update (st : DocStorage) (base_dir repo_name documentation : String)
    (metadata : MetaDict) (ts iso : String) (now : Nat) :
    (∀ k, k ≠ "generated_at" → k ≠ "documentation_file" → k ≠ "file_size" →
        k ≠ "doc_path" →
        tableGet (save_documentation st base_dir repo_name documentation metadata
          ts iso now).2.1 k = tableGet metadata k) ∧
    tableGet (save_documentation st base_dir repo_name documentation metadata
        ts iso now).2.1 "generated_at" = some (MetaVal.vstr iso) ∧
    tableGet (save_documentation st base_dir repo_name documentation metadata
        ts iso now).2.1 "documentation_file"
      = some (MetaVal.vstr (repo_name ++ "_" ++ ts ++ ".md")) ∧
    tableGet (save_documentation st base_dir repo_name documentation metadata
        ts iso now).2.1 "file_size" = some (MetaVal.vnat documentation.utf8ByteSize) ∧
    tableGet (save_documentation st base_dir repo_name documentation metadata
        ts iso now).2.1 "doc_path"
      = some (MetaVal.vstr (base_dir ++ "/repositories/"
          ++ (repo_name ++ "_" ++ ts ++ ".md"))) := by
  unfold save_documentation dictUpdate
  simp only [List.foldl_cons, List.foldl_nil]
  refine ⟨?_, ?_, ?_, ?_, ?_⟩
  · intro k h1 h2 h3 h4
    rw [tableGet_set_ne _ _ _ _ h4, tableGet_set_ne _ _ _ _ h3,
      tableGet_set_ne _ _ _ _ h2, tableGet_set_ne _ _ _ _ h1]
  · rw [tableGet_set_ne _ _ _ _ (by decide), tableGet_set_ne _ _ _ _ (by decide),
      tableGet_set_ne _ _ _ _ (by decide), tableGet_set_self]
  · rw [tableGet_set_ne _ _ _ _ (by decide), tableGet_set_ne _ _ _ _ (by decide),
      tableGet_set_self]
  · rw [tableGet_set_ne _ _ _ _ (by decide), tableGet_set_self]
  · rw [tableGet_set_self]

/-- Witness for C10 (amended) at concrete inputs: a caller key "task_id" keeps
its value and "file_size" is set to the body's UTF-8 size. -/
theorem save_metadata_update_witness :
    tableGet ((save_documentation ⟨[], []⟩ "/docs" "repo" "body"
        [("task_id", MetaVal.vstr "t1")] "20250101_120000" "iso" 0).2.1) "task_id"
      = some (MetaVal.vstr "t1") ∧
    tableGet ((save_documentation ⟨[], []⟩ "/docs" "repo" "body"
        [("task_id", MetaVal.vstr "t1")] "20250101_120000" "iso" 0).2.1) "file_size"
      = some (MetaVal.vnat 4) := by
  have h := save_metadata_update ⟨[], []⟩ "/docs" "repo" "body"
    [("task_id", MetaVal.vstr "t1")] "20250101_120000" "iso" 0
  refine ⟨?_, ?_⟩
  · rw [h.1 "task_id" (by decide) (by decide) (by decide) (by decide)]
    decide
  · rw [h.2.2.2.1]
    decide

/-! ## Claim C5 -/

/-- C5: whatever the per-call provider overrides and whatever the outcome of any
stage, the settings object after `generate_documentation` equals the settings
object before the call in every field. -/
theorem settings_restored {Chunk : Type} (w : PipelineWorld Chunk)
    (settings : Settings) (st : DocStorage) (fs : TempFs) (temp_dir : String)
    (repo_name task_id : String) (file_extensions : List String)
    (include_diagrams : Bool) (vector_db_provider llm_provider : Option String)
    (ts iso : String) (now elapsed : Nat) :
    (generate_documentation w settings st fs temp_dir repo_name task_id
      file_extensions include_diagrams vector_db_provider llm_provider
      ts iso now elapsed).2.1 = settings := by
  unfold generate_documentation
  rcases vector_db_provider with _ | v <;> rcases llm_provider with _ | u <;>
    rcases clone_repository w fs temp_dir with ⟨res, fs1⟩ <;>
    rcases res with e | p <;>
    simp only [] <;>
    first
    | rfl
    | (split_ifs <;> rfl)

/-! ## Claim C6 -/

/-- C6: the chunking stage fails with a ProcessingError exactly when the chunk
list combined over all requested extensions is empty; a non-empty combined list
(even when individual extensions failed and were skipped) yields success with
exactly those chunks. -/
theorem chunking_fails_iff_empty {Chunk : Type}
    (ls : String → Except String (List Chunk)) (file_extensions : List String)
    (_hne : file_extensions ≠ []) :
    ((∃ msg, process_repository ls file_extensions = .error (.processingError msg))
       ↔ load_and_split_with_extensions ls file_extensions = []) ∧
    (load_and_split_with_extensions ls file_extensions = [] →
       process_repository ls file_extensions
         = .error (.processingError ("Failed to process repository files: "
             ++ "No processable files found in repository"))) ∧
    (load_and_split_with_extensions ls file_extensions ≠ [] →
       process_repository ls file_extensions
         = .ok (load_and_split_with_extensions ls file_extensions)) := by
  unfold process_repository
  rcases hcl : load_and_split_with_extensions ls file_extensions with _ | ⟨c, cs⟩ <;>
    simp [hcl]

/-- Witness for C6: one run where every extension fails (the stage escalates to
ProcessingError) and one where a failed extension is skipped but another
produced chunks (the stage succeeds with those chunks). -/
theorem chunking_fails_iff_empty_witness :
    @process_repository Nat (fun _ => Except.error "denied") [".py"]
      = .error (.processingError ("Failed to process repository files: "
          ++ "No processable files found in repository")) ∧
    @process_repository Nat
        (fun p => if p = "**/*.py" then .ok [7] else .error "denied") [".py", ".java"]
      = .ok [7] := by
  refine ⟨(chunking_fails_iff_empty (fun _ => Except.error "denied") [".py"]
      (by decide)).2.1 (by decide), ?_⟩
  have h := (chunking_fails_iff_empty
    (fun p => if p = "**/*.py" then Except.ok [7] else Except.error "denied")
    [".py", ".java"] (by decide)).2.2 (by decide)
  have hl : @load_and_split_with_extensions Nat
      (fun p => if p = "**/*.py" then Except.ok [7] else Except.error "denied")
      [".py", ".java"] = [7] := by decide
  rw [hl] at h
  exact h

/-! ## Claim C2 -/

/-- C2 as stated is false: the mkdtemp workspace directory itself survives every
run.  Concretely, after a run whose clone fails, and equally after a fully
successful run, the mkdtemp directory is still present in the filesystem. -/
theorem temp_workspace_not_removed :
    ("./dummy_repo/repo_t1_x" ∈ (generate_documentation leakWorldFail defaultSettings
        ⟨[], []⟩ ⟨[]⟩ "./dummy_repo/repo_t1_x" "repo" "t1" [".py"] true none none
        "20250101_120000" "iso" 0 0).2.2.2.dirs) ∧
    ("./dummy_repo/repo_t1_x" ∈ (generate_documentation leakWorldOk defaultSettings
        ⟨[], []⟩ ⟨[]⟩ "./dummy_repo/repo_t1_x" "repo" "t1" [".py"] true none none
        "20250101_120000" "iso" 0 0).2.2.2.dirs) := by decide

/-- C2 (amended): whenever cloning succeeds, the cloned-repository subdirectory
of the workspace and everything beneath it is removed on every exit path
(success or failure of any later stage), and a failure of the cleanup itself
changes neither the pipeline outcome, nor the settings, nor the stored
documentation — it is swallowed, never re-raised.  The mkdtemp directory
itself is not removed, and nothing is removed when cloning fails. -/
theorem workspace_cleanup_after_clone {Chunk : Type} (w : PipelineWorld Chunk)
    (settings : Settings) (st : DocStorage) (fs : TempFs) (temp_dir : String)
    (repo_name task_id : String) (file_extensions : List String)
    (include_diagrams : Bool) (vector_db_provider llm_provider : Option String)
    (ts iso : String) (now elapsed : Nat)
    (hclone : w.clone_result = .ok ()) :
    (w.cleanup_fails = false →
      ∀ d, d = temp_dir ++ "/repo" ∨ strStarts d (temp_dir ++ "/repo" ++ "/") = true →
        d ∉ (generate_documentation w settings st fs temp_dir repo_name task_id
            file_extensions include_diagrams vector_db_provider llm_provider
            ts iso now elapsed).2.2.2.dirs) ∧
    ((generate_documentation { w with cleanup_fails := true } settings st fs temp_dir
        repo_name task_id file_extensions include_diagrams vector_db_provider
        llm_provider ts iso now elapsed).1
      = (generate_documentation { w with cleanup_fails := false } settings st fs temp_dir
        repo_name task_id file_extensions include_diagrams vector_db_provider
        llm_provider ts iso now elapsed).1) ∧
    ((generate_documentation { w with cleanup_fails := true } settings st fs temp_dir
        repo_name task_id file_extensions include_diagrams vector_db_provider
        llm_provider ts iso now elapsed).2.1
      = (generate_documentation { w with cleanup_fails := false } settings st fs temp_dir
        repo_name task_id file_extensions include_diagrams vector_db_provider
        llm_provider ts iso now elapsed).2.1) ∧
    ((generate_documentation { w with cleanup_fails := true } settings st fs temp_dir
        repo_name task_id file_extensions include_diagrams vector_db_provider
        llm_provider ts iso now elapsed).2.2.1
      = (generate_documentation { w with cleanup_fails := false } settings st fs temp_dir
        repo_name task_id file_extensions include_diagrams vector_db_provider
        llm_provider ts iso now elapsed).2.2.1) := by
  rcases w with ⟨cr, vs, vt, lsf, vi, ir, rr, gr, cf⟩
  have hcr : cr = Except.ok () := hclone
  subst hcr
  refine ⟨?_, rfl, rfl, rfl⟩
  intro hcf d hd
  have hcf' : cf = false := hcf
  subst hcf'
  unfold generate_documentation clone_repository
  simp only [cleanup_repository, removeTree, if_false, Bool.false_eq_true]
  intro hmem
  rcases List.mem_filter.1 hmem with ⟨-, hpred⟩
  rcases hd with rfl | hd
  · simp at hpred
  · simp [hd] at hpred

/-- Witness for C2 (amended): in the all-success run the cloned repository
subdirectory is gone afterwards. -/
theorem workspace_cleanup_after_clone_witness :
    "./dummy_repo/repo_t1_x/repo" ∉ (generate_documentation leakWorldOk defaultSettings
        ⟨[], []⟩ ⟨[]⟩ "./dummy_repo/repo_t1_x" "repo" "t1" [".py"] true none none
        "20250101_120000" "iso" 0 0).2.2.2.dirs := by
  have h := workspace_cleanup_after_clone leakWorldOk defaultSettings ⟨[], []⟩ ⟨[]⟩
    "./dummy_repo/repo_t1_x" "repo" "t1" [".py"] true none none
    "20250101_120000" "iso" 0 0 rfl
  exact h.1 rfl "./dummy_repo/repo_t1_x/repo" (Or.inl rfl)

/-! ## Table lemmas for the cleanup proofs -/

theorem tableGet_eq_none_of_not_mem {α : Type} (t : List (String × α)) (k : String)
    (h : k ∉ t.map Prod.fst) : tableGet t k = none := by
  induction t with
  | nil => rfl
  | cons e t ih =>
    simp only [List.map_cons, List.mem_cons, not_or] at h
    simp [tableGet, Ne.symm h.1, ih h.2]

theorem tableGet_of_mem {α : Type} (t : List (String × α)) (e : String × α)
    (he : e ∈ t) (hnd : (t.map Prod.fst).Nodup) : tableGet t e.1 = some e.2 := by
  induction t with
  | nil => cases he
  | cons f t ih =>
    rcases List.mem_cons.1 he with rfl | he'
    · simp [tableGet]
    · have hne : f.1 ≠ e.1 := by
        intro hh
        exact (List.nodup_cons.1 hnd).1 (hh ▸ List.mem_map_of_mem Prod.fst he')
      simp [tableGet, hne, ih he' (List.nodup_cons.1 hnd).2]

theorem mem_of_tableGet {α : Type} (t : List (String × α)) (k : String) (v : α)
    (h : tableGet t k = some v) : (k, v) ∈ t := by
  induction t with
  | nil => cases h
  | cons e t ih =>
    obtain ⟨a, b⟩ := e
    by_cases he : a = k
    · subst he
      simp only [tableGet, if_pos] at h
      injection h with hv
      subst hv
      exact List.mem_cons_self _ _
    · simp only [tableGet, he, if_neg, if_false] at h
      exact List.mem_cons_of_mem _ (ih h)

theorem tableHas_iff_mem {α : Type} (t : List (String × α)) (k : String) :
    tableHas t k = true ↔ k ∈ t.map Prod.fst := by
  induction t with
  | nil => simp [tableHas, tableGet]
  | cons e t ih =>
    by_cases he : e.1 = k
    · simp [tableHas, tableGet, he]
    · simpa [tableHas, tableGet, he, Ne.symm he] using ih

theorem tableRemove_eq_of_not_has {α : Type} (t : List (String × α)) (k : String)
    (h : tableHas t k = false) : tableRemove t k = t := by
  induction t with
  | nil => rfl
  | cons e t ih =>
    by_cases he : e.1 = k
    · simp [tableHas, tableGet, he] at h
    · simp only [tableHas, tableGet, he, if_neg, if_false] at h
      simp [tableRemove, he, ih h]

theorem tableRemove_sublist {α : Type} (t : List (String × α)) (k : String) :
    (tableRemove t k).Sublist t := by
  induction t with
  | nil => simp [tableRemove]
  | cons e t ih =>
    by_cases he : e.1 = k
    · simp only [tableRemove, he, if_pos]
      exact ih.cons e
    · simp only [tableRemove, he, if_neg, if_false]
      exact ih.cons₂ e

theorem tableRemove_length {α : Type} (t : List (String × α)) (k : String)
    (hnd : (t.map Prod.fst).Nodup) (h : tableHas t k = true) :
    (tableRemove t k).length + 1 = t.length := by
  induction t with
  | nil => simp [tableHas, tableGet] at h
  | cons e t ih =>
    by_cases he : e.1 = k
    · have hnotin : k ∉ t.map Prod.fst := he ▸ (List.nodup_cons.1 hnd).1
      have : tableHas t k = false := by
        simp [tableHas, tableGet_eq_none_of_not_mem t k hnotin]
      simp [tableRemove, he, tableRemove_eq_of_not_has t k this]
    · have h' : tableHas t k = true := by
        simpa [tableHas, tableGet, he] using h
      simp [tableRemove, he, ih (List.nodup_cons.1 hnd).2 h']

/-! ## removeOldFile lemmas -/

theorem removeOldFile_repos (acc : Nat × DocStorage) (old : String × DocFile) :
    (removeOldFile acc old).2.repos = tableRemove acc.2.repos old.1 := by
  simp only [removeOldFile]
  split <;> rfl

theorem removeOldFile_metadata_get (acc : Nat × DocStorage) (old : String × DocFile)
    (nm : String) :
    tableGet (removeOldFile acc old).2.metadata nm
      = if nm = sidecarName (mdStem old.1) then none else tableGet acc.2.metadata nm := by
  simp only [removeOldFile]
  by_cases h : tableHas acc.2.metadata (sidecarName (mdStem old.1)) = true
  · simp only [h, if_pos]
    by_cases hnm : nm = sidecarName (mdStem old.1)
    · simp [hnm, tableGet_remove_self]
    · simp [hnm, tableGet_remove_ne _ _ _ hnm]
  · simp only [Bool.not_eq_true] at h
    simp only [h, Bool.false_eq_true, if_neg, if_false]
    by_cases hnm : nm = sidecarName (mdStem old.1)
    · subst hnm
      simp only [if_pos]
      simpa [tableHas] using h
    · simp [hnm]

theorem removeOldFile_count (acc : Nat × DocStorage) (old : String × DocFile) :
    (removeOldFile acc old).1
      = acc.1 + 1 + (if tableHas acc.2.metadata (sidecarName (mdStem old.1)) then 1 else 0) := by
  simp only [removeOldFile]
  split <;> simp_all

theorem removeOldFile_metadata (acc : Nat × DocStorage) (old : String × DocFile) :
    (removeOldFile acc old).2.metadata
      = if tableHas acc.2.metadata (sidecarName (mdStem old.1))
        then tableRemove acc.2.metadata (sidecarName (mdStem old.1))
        else acc.2.metadata := by
  simp only [removeOldFile]
  split <;> simp_all

/-! ## Effect of the deletion fold -/

theorem removeOld_fold_repos_get (del : List (String × DocFile)) (acc : Nat × DocStorage)
    (nm : String) :
    tableGet (del.foldl removeOldFile acc).2.repos nm
      = if nm ∈ del.map Prod.fst then none else tableGet acc.2.repos nm := by
  induction del generalizing acc with
  | nil => simp
  | cons d rest ih =>
    simp only [List.foldl_cons]
    rw [ih]
    by_cases hmem : nm ∈ rest.map Prod.fst
    · simp [hmem]
    · by_cases hd : nm = d.1
      · subst hd
        simp [hmem, removeOldFile_repos, tableGet_remove_self]
      · simp [hmem, hd, removeOldFile_repos, tableGet_remove_ne _ _ _ hd]

theorem removeOld_fold_metadata_get (del : List (String × DocFile))
    (acc : Nat × DocStorage) (nm : String) :
    tableGet (del.foldl removeOldFile acc).2.metadata nm
      = if nm ∈ del.map (fun d => sidecarName (mdStem d.1)) then none
        else tableGet acc.2.metadata nm := by
  induction del generalizing acc with
  | nil => simp
  | cons d rest ih =>
    simp only [List.foldl_cons]
    rw [ih]
    by_cases hmem : nm ∈ rest.map (fun d => sidecarName (mdStem d.1))
    · simp [hmem]
    · by_cases hd : nm = sidecarName (mdStem d.1)
      · simp [hmem, hd, removeOldFile_metadata_get]
      · simp [hmem, hd, removeOldFile_metadata_get]

theorem removeOld_fold_count (del : List (String × DocFile)) (acc : Nat × DocStorage)
    (hnd : (del.map (fun d => sidecarName (mdStem d.1))).Nodup) :
    (del.foldl removeOldFile acc).1
      = acc.1 + del.length
        + (del.filter (fun d => tableHas acc.2.metadata (sidecarName (mdStem d.1)))).length := by
  induction del generalizing acc with
  | nil => simp
  | cons d rest ih =>
    simp only [List.map_cons, List.nodup_cons] at hnd
    simp only [List.foldl_cons]
    rw [ih _ hnd.2]
    have hcongr : rest.filter
        (fun r => tableHas (removeOldFile acc d).2.metadata (sidecarName (mdStem r.1)))
        = rest.filter (fun r => tableHas acc.2.metadata (sidecarName (mdStem r.1))) := by
      apply List.filter_congr
      intro r hr
      have hne : sidecarName (mdStem r.1) ≠ sidecarName (mdStem d.1) := by
        intro hh
        exact hnd.1 (hh ▸ List.mem_map_of_mem _ hr)
      simp [tableHas, removeOldFile_metadata_get, hne]
    rw [hcongr, removeOldFile_count]
    by_cases hp : tableHas acc.2.metadata (sidecarName (mdStem d.1)) = true
    · simp [hp, List.filter_cons]
      omega
    · simp only [Bool.not_eq_true] at hp
      simp [hp, List.filter_cons]
      omega

theorem removeOld_fold_repos_length (del : List (String × DocFile))
    (acc : Nat × DocStorage)
    (hnd : (del.map Prod.fst).Nodup)
    (hwf : (acc.2.repos.map Prod.fst).Nodup)
    (hmem : ∀ d ∈ del, tableHas acc.2.repos d.1 = true) :
    (del.foldl removeOldFile acc).2.repos.length + del.length = acc.2.repos.length := by
  induction del generalizing acc with
  | nil => simp
  | cons d rest ih =>
    simp only [List.map_cons, List.nodup_cons] at hnd
    simp only [List.foldl_cons]
    have hrepos := removeOldFile_repos acc d
    have hwf' : ((removeOldFile acc d).2.repos.map Prod.fst).Nodup := by
      rw [hrepos]
      exact List.Nodup.sublist (List.Sublist.map _ (tableRemove_sublist _ _)) hwf
    have hmem' : ∀ r ∈ rest, tableHas (removeOldFile acc d).2.repos r.1 = true := by
      intro r hr
      have hne : r.1 ≠ d.1 := by
        intro hh
        exact hnd.1 (hh ▸ List.mem_map_of_mem Prod.fst hr)
      rw [hrepos]
      simpa [tableHas, tableGet_remove_ne _ _ _ hne]
        using hmem r (List.mem_cons_of_mem d hr)
    have hlen : (removeOldFile acc d).2.repos.length + 1 = acc.2.repos.length := by
      rw [hrepos]
      exact tableRemove_length _ _ hwf (hmem d (List.mem_cons_self d rest))
    have hrec := ih (removeOldFile acc d) hnd.2 hwf' hmem'
    simp only [List.length_cons]
    omega

theorem removeOld_fold_metadata_length (del : List (String × DocFile))
    (acc : Nat × DocStorage)
    (hnd : (del.map (fun d => sidecarName (mdStem d.1))).Nodup)
    (hwf : (acc.2.metadata.map Prod.fst).Nodup) :
    (del.foldl removeOldFile acc).2.metadata.length
      + (del.filter (fun d => tableHas acc.2.metadata (sidecarName (mdStem d.1)))).length
      = acc.2.metadata.length := by
  induction del generalizing acc with
  | nil => simp
  | cons d rest ih =>
    simp only [List.map_cons, List.nodup_cons] at hnd
    simp only [List.foldl_cons]
    have hcongr : rest.filter
        (fun r => tableHas (removeOldFile acc d).2.metadata (sidecarName (mdStem r.1)))
        = rest.filter (fun r => tableHas acc.2.metadata (sidecarName (mdStem r.1))) := by
      apply List.filter_congr
      intro r hr
      have hne : sidecarName (mdStem r.1) ≠ sidecarName (mdStem d.1) := by
        intro hh
        exact hnd.1 (hh ▸ List.mem_map_of_mem _ hr)
      simp [tableHas, removeOldFile_metadata_get, hne]
    have hmd := removeOldFile_metadata acc d
    by_cases hp : tableHas acc.2.metadata (sidecarName (mdStem d.1)) = true
    · have hwf' : ((removeOldFile acc d).2.metadata.map Prod.fst).Nodup := by
        rw [hmd, if_pos hp]
        exact List.Nodup.sublist (List.Sublist.map _ (tableRemove_sublist _ _)) hwf
      have hlen : (removeOldFile acc d).2.metadata.length + 1 = acc.2.metadata.length := by
        rw [hmd, if_pos hp]
        exact tableRemove_length _ _ hwf hp
      have hrec := ih (removeOldFile acc d) hnd.2 hwf'
      rw [hcongr] at hrec
      simp [hp, List.filter_cons]
      omega
    · simp only [Bool.not_eq_true] at hp
      have hsame : (removeOldFile acc d).2.metadata = acc.2.metadata := by
        rw [hmd, if_neg (by simp [hp])]
      have hrec := ih (removeOldFile acc d) hnd.2 (by rw [hsame]; exact hwf)
      rw [hcongr] at hrec
      rw [hsame] at hrec
      simp [hp, List.filter_cons]
      omega

theorem optCat_nil (o : Option (List (String × DocFile))) : optCat o [] = o := by
  rcases o with _ | fs0 <;> simp [optCat]

theorem optCat_snoc (o : Option (List (String × DocFile)))
    (x : String × DocFile) (fs : List (String × DocFile)) :
    optCat (some (o.getD [] ++ [x])) fs = optCat o (x :: fs) := by
  rcases o with _ | fs0 <;> rcases fs with _ | ⟨f, fs'⟩ <;> simp [optCat]

theorem addToGroup_get_self (t : List (String × List (String × DocFile)))
    (g : String) (f : String × DocFile) :
    tableGet (addToGroup t g f) g = some ((tableGet t g).getD [] ++ [f]) := by
  induction t with
  | nil => simp [addToGroup, tableGet]
  | cons e rest ih =>
    by_cases he : e.1 = g
    · simp [addToGroup, tableGet, he]
    · simp [addToGroup, tableGet, he, ih]

theorem addToGroup_get_ne (t : List (String × List (String × DocFile)))
    (g : String) (f : String × DocFile) (g' : String) (h : g' ≠ g) :
    tableGet (addToGroup t g f) g' = tableGet t g' := by
  induction t with
  | nil => simp [addToGroup, tableGet, Ne.symm h]
  | cons e rest ih =>
    by_cases he : e.1 = g
    · subst he
      simp [addToGroup, tableGet, Ne.symm h]
    · by_cases he' : e.1 = g'
      · simp [addToGroup, tableGet, he, he', h]
      · simp [addToGroup, tableGet, he, he', ih]

theorem addToGroup_map_fst (t : List (String × List (String × DocFile)))
    (g : String) (f : String × DocFile) :
    (addToGroup t g f).map Prod.fst
      = if g ∈ t.map Prod.fst then t.map Prod.fst else t.map Prod.fst ++ [g] := by
  induction t with
  | nil => simp [addToGroup]
  | cons e rest ih =>
    by_cases he : e.1 = g
    · simp [addToGroup, he]
    · have hgne : ¬ g = e.1 := fun hh => he hh.symm
      simp only [addToGroup, he, if_neg, if_false, List.map_cons, ih]
      by_cases hmem : g ∈ rest.map Prod.fst
      · simp [hmem, List.mem_cons, hgne]
      · simp [hmem, List.mem_cons, hgne]

theorem addToGroup_nodup (t : List (String × List (String × DocFile)))
    (g : String) (f : String × DocFile) (h : (t.map Prod.fst).Nodup) :
    ((addToGroup t g f).map Prod.fst).Nodup := by
  rw [addToGroup_map_fst]
  by_cases hg : g ∈ t.map Prod.fst
  · simpa [hg]
  · simpa [hg, List.nodup_append] using h

theorem gfold_get (l : List (String × DocFile))
    (acc : List (String × List (String × DocFile))) (g : String) :
    tableGet (l.foldl groupStep acc) g
      = optCat (tableGet acc g) (l.filter (fun e => cleanupGroupOf e.1 == some g)) := by
  induction l generalizing acc with
  | nil => simp [optCat_nil]
  | cons e rest ih =>
    simp only [List.foldl_cons]
    rcases hce : cleanupGroupOf e.1 with _ | ge
    · rw [show groupStep acc e = acc by simp [groupStep, hce]]
      rw [ih]
      simp [List.filter_cons, hce]
    · rw [show groupStep acc e = addToGroup acc ge e by simp [groupStep, hce]]
      by_cases hg : ge = g
      · subst hg
        rw [ih, addToGroup_get_self]
        simp only [List.filter_cons, hce, beq_self_eq_true, if_pos]
        exact optCat_snoc _ _ _
      · rw [ih, addToGroup_get_ne _ _ _ _ (Ne.symm hg)]
        have : (cleanupGroupOf e.1 == some g) = false := by
          simp [hce, hg]
        simp [List.filter_cons, this]

theorem gfold_nodup (l : List (String × DocFile))
    (acc : List (String × List (String × DocFile)))
    (h : (acc.map Prod.fst).Nodup) : ((l.foldl groupStep acc).map Prod.fst).Nodup := by
  induction l generalizing acc with
  | nil => exact h
  | cons e rest ih =>
    simp only [List.foldl_cons]
    apply ih
    unfold groupStep
    rcases cleanupGroupOf e.1 with _ | ge
    · exact h
    · exact addToGroup_nodup _ _ _ h

theorem buildRepoGroups_get (st : DocStorage) (g : String) :
    tableGet (buildRepoGroups st) g = optCat none (filterGroup st g) :=
  gfold_get st.repos [] g

theorem buildRepoGroups_nodup (st : DocStorage) :
    ((buildRepoGroups st).map Prod.fst).Nodup :=
  gfold_nodup st.repos [] List.nodup_nil

theorem buildRepoGroups_get_eq_filter (st : DocStorage) (g : String)
    (fs : List (String × DocFile)) (h : tableGet (buildRepoGroups st) g = some fs) :
    fs = filterGroup st g := by
  rw [buildRepoGroups_get] at h
  rcases hf : filterGroup st g with _ | ⟨x, xs⟩ <;> rw [hf] at h
  · simp [optCat] at h
  · simp [optCat] at h
    exact h.symm

theorem mem_buildRepoGroups_eq_filter (st : DocStorage) (g : String)
    (fs : List (String × DocFile)) (h : (g, fs) ∈ buildRepoGroups st) :
    fs = filterGroup st g := by
  apply buildRepoGroups_get_eq_filter st g fs
  have := tableGet_of_mem (buildRepoGroups st) (g, fs) h (buildRepoGroups_nodup st)
  exact this

/-! ## Filename decomposition lemmas -/

theorem listStarts_iff_append {α : Type} [DecidableEq α] (l p : List α) :
    listStarts l p = true ↔ ∃ rest, l = p ++ rest := by
  induction p generalizing l with
  | nil =>
    simp [listStarts]
  | cons b p ih =>
    cases l with
    | nil => simp [listStarts]
    | cons a l =>
      simp only [listStarts, Bool.and_eq_true, decide_eq_true_eq, ih, List.cons_append,
        List.cons.injEq]
      constructor
      · rintro ⟨rfl, rest, rfl⟩
        exact ⟨rest, rfl, rfl⟩
      · rintro ⟨rest, rfl, rfl⟩
        exact ⟨rfl, rest, rfl⟩

theorem strEnds_md_decomp (n : String) (h : strEnds n ".md" = true) :
    n.data = (mdStem n).data ++ ['.', 'm', 'd'] := by
  unfold strEnds at h
  rw [listStarts_iff_append] at h
  obtain ⟨rest, hr⟩ := h
  have hdata : n.data = rest.reverse ++ ['.', 'm', 'd'] := by
    have h2 := congrArg List.reverse hr
    simpa using h2
  have hstem : (mdStem n).data = rest.reverse := by
    show (n.data.take (n.data.length - 3)) = rest.reverse
    rw [hdata]
    have hlen : (rest.reverse ++ ['.', 'm', 'd']).length - 3 = rest.reverse.length := by
      simp
    rw [hlen]
    exact List.take_left rest.reverse ['.', 'm', 'd']
  rw [hstem, hdata]

theorem mdStem_inj (a b : String) (ha : strEnds a ".md" = true)
    (hb : strEnds b ".md" = true) (h : mdStem a = mdStem b) : a = b := by
  apply String.ext
  rw [strEnds_md_decomp a ha, strEnds_md_decomp b hb, h]

theorem sidecarName_inj (s1 s2 : String) (h : sidecarName s1 = sidecarName s2) :
    s1 = s2 := by
  unfold sidecarName at h
  apply String.ext
  have h2 := congrArg String.data h
  simp only [String.data_append] at h2
  exact List.append_cancel_right h2

theorem cleanupGroupOf_props (fname g : String) (h : cleanupGroupOf fname = some g) :
    strEnds fname ".md" = true ∧ strEnds fname "_latest.md" = false := by
  unfold cleanupGroupOf at h
  by_cases hc : (matchesStarMd fname && !(strEnds fname "_latest.md")) = true
  · simp only [Bool.and_eq_true, Bool.not_eq_true'] at hc
    refine ⟨?_, hc.2⟩
    have h1 := hc.1
    unfold matchesStarMd at h1
    exact h1
  · rw [if_neg hc] at h
    cases h

/-- Two entries of a nodup-keyed table with the same key are the same entry. -/
theorem eq_of_mem_of_fst_eq {α : Type} (l : List (String × α))
    (hnd : (l.map Prod.fst).Nodup) (x y : String × α)
    (hx : x ∈ l) (hy : y ∈ l) (h : x.1 = y.1) : x = y := by
  have h1 := tableGet_of_mem l x hx hnd
  have h2 := tableGet_of_mem l y hy hnd
  rw [h, h2] at h1
  injection h1 with h3
  exact Prod.ext h h3.symm

/-! ## The deletion list of cleanup_old_files -/

theorem cleanupGroups_fold (gs : List (String × List (String × DocFile))) (k : Nat)
    (acc : Nat × DocStorage) :
    gs.foldl (fun acc grp => cleanupGroup k acc grp.2) acc
      = ((gs.map (fun grp => if k < grp.2.length
            then (grp.2.mergeSort newestFirst).drop k else [])).flatten).foldl
          removeOldFile acc := by
  induction gs generalizing acc with
  | nil => rfl
  | cons grp rest ih =>
    simp only [List.foldl_cons, List.map_cons, List.flatten_cons, List.foldl_append]
    rw [ih]
    congr 1
    by_cases hk : k < grp.2.length
    · simp [cleanupGroup, hk]
    · simp [cleanupGroup, hk]

theorem cleanup_eq_fold (st : DocStorage) (k : Nat) :
    cleanup_old_files st k = (deletionList st k).foldl removeOldFile (0, st) := by
  unfold cleanup_old_files deletionList
  exact cleanupGroups_fold (buildRepoGroups st) k (0, st)

theorem mem_deletionList (st : DocStorage) (k : Nat) (d : String × DocFile) :
    d ∈ deletionList st k ↔ ∃ g fs, (g, fs) ∈ buildRepoGroups st ∧ k < fs.length ∧
      d ∈ (fs.mergeSort newestFirst).drop k := by
  unfold deletionList
  rw [List.mem_flatten]
  constructor
  · rintro ⟨l, hl, hd⟩
    rw [List.mem_map] at hl
    obtain ⟨grp, hgrp, rfl⟩ := hl
    by_cases hk : k < grp.2.length
    · rw [if_pos hk] at hd
      exact ⟨grp.1, grp.2, hgrp, hk, hd⟩
    · rw [if_neg hk] at hd
      cases hd
  · rintro ⟨g, fs, hg, hk, hd⟩
    refine ⟨(fs.mergeSort newestFirst).drop k, ?_, hd⟩
    rw [List.mem_map]
    exact ⟨(g, fs), hg, by simp [hk]⟩

theorem deletion_mem_filterGroup (st : DocStorage) (k : Nat) (d : String × DocFile)
    (hd : d ∈ deletionList st k) :
    ∃ g, d ∈ filterGroup st g ∧ cleanupGroupOf d.1 = some g ∧
      k < (filterGroup st g).length := by
  obtain ⟨g, fs, hg, hk, hdrop⟩ := (mem_deletionList st k d).1 hd
  have hfs : fs = filterGroup st g := mem_buildRepoGroups_eq_filter st g fs hg
  have hmem : d ∈ fs := by
    have h1 : d ∈ fs.mergeSort newestFirst :=
      List.Sublist.mem hdrop (List.drop_sublist k _)
    exact (List.mergeSort_perm fs newestFirst).mem_iff.1 h1
  have hpred : cleanupGroupOf d.1 = some g := by
    have h2 := hmem
    rw [hfs] at h2
    unfold filterGroup at h2
    have h3 := List.mem_filter.1 h2
    simpa using h3.2
  exact ⟨g, hfs ▸ hmem, hpred, hfs ▸ hk⟩

theorem filterGroup_subset_repos (st : DocStorage) (g : String) (d : String × DocFile)
    (hd : d ∈ filterGroup st g) : d ∈ st.repos :=
  (List.mem_filter.1 hd).1

theorem payload_name_mem (st : DocStorage) (k : Nat)
    (grp : String × List (String × DocFile)) (hgrp : grp ∈ buildRepoGroups st)
    (x : String)
    (hx : x ∈ (if k < grp.2.length then (grp.2.mergeSort newestFirst).drop k
        else []).map Prod.fst) :
    ∃ d, d ∈ st.repos ∧ d.1 = x ∧ cleanupGroupOf x = some grp.1 := by
  by_cases hk : k < grp.2.length
  · rw [if_pos hk] at hx
    obtain ⟨d, hd, rfl⟩ := List.mem_map.1 hx
    have hdfs : d ∈ grp.2 := (List.mergeSort_perm grp.2 newestFirst).mem_iff.1
      (List.Sublist.mem hd (List.drop_sublist k _))
    have hfs := mem_buildRepoGroups_eq_filter st grp.1 grp.2 hgrp
    rw [hfs] at hdfs
    have h2 := List.mem_filter.1 hdfs
    exact ⟨d, h2.1, rfl, by simpa using h2.2⟩
  · rw [if_neg hk] at hx
    cases hx

theorem deletionList_names_nodup (st : DocStorage) (k : Nat)
    (hwfr : (st.repos.map Prod.fst).Nodup) :
    ((deletionList st k).map Prod.fst).Nodup := by
  unfold deletionList
  rw [List.map_flatten, List.map_map, List.nodup_flatten]
  constructor
  · intro l hl
    rw [List.mem_map] at hl
    obtain ⟨grp, hgrp, rfl⟩ := hl
    by_cases hk : k < grp.2.length
    · simp only [Function.comp_apply, hk, if_pos]
      have hfs := mem_buildRepoGroups_eq_filter st grp.1 grp.2 hgrp
      have hfsnodup : (grp.2.map Prod.fst).Nodup := by
        rw [hfs]
        exact List.Nodup.sublist (List.Sublist.map _ (List.filter_sublist _)) hwfr
      have hsorted : ((grp.2.mergeSort newestFirst).map Prod.fst).Nodup :=
        ((List.mergeSort_perm grp.2 newestFirst).map Prod.fst).nodup_iff.2 hfsnodup
      exact List.Nodup.sublist (List.Sublist.map _ (List.drop_sublist _ _)) hsorted
    · simp [Function.comp_apply, hk]
  · rw [List.pairwise_map]
    have hpw : List.Pairwise (fun a b => a.1 ≠ b.1) (buildRepoGroups st) :=
      List.pairwise_map.1 (buildRepoGroups_nodup st)
    refine hpw.imp_of_mem ?_
    intro a b ha hb hab x hxa hxb
    obtain ⟨da, -, -, hga⟩ := payload_name_mem st k a ha x hxa
    obtain ⟨db, -, -, hgb⟩ := payload_name_mem st k b hb x hxb
    rw [hga] at hgb
    injection hgb with hq
    exact hab hq

theorem group_pred (st : DocStorage) (g : String) (e : String × DocFile)
    (he : e ∈ filterGroup st g) : cleanupGroupOf e.1 = some g := by
  have h3 := List.mem_filter.1 he
  simpa using h3.2

/-- A file of a registered group that is not among its own group's dropped tail
is not deleted by any group. -/
theorem kept_not_deleted (st : DocStorage) (k : Nat) (repo : String)
    (fs : List (String × DocFile)) (hwfr : (st.repos.map Prod.fst).Nodup)
    (hg : tableGet (buildRepoGroups st) repo = some fs)
    (e : String × DocFile) (he : e ∈ fs)
    (hnotdrop : e ∉ (fs.mergeSort newestFirst).drop k) :
    e.1 ∉ (deletionList st k).map Prod.fst := by
  intro hmem
  obtain ⟨d, hd, hdx⟩ := List.mem_map.1 hmem
  obtain ⟨g', fs', hg'mem, hk', hdrop⟩ := (mem_deletionList st k d).1 hd
  have hfs : fs = filterGroup st repo := buildRepoGroups_get_eq_filter st repo fs hg
  have hfs' : fs' = filterGroup st g' := mem_buildRepoGroups_eq_filter st g' fs' hg'mem
  have hdfs' : d ∈ fs' := (List.mergeSort_perm fs' newestFirst).mem_iff.1
    (List.Sublist.mem hdrop (List.drop_sublist k _))
  have hdrepos : d ∈ st.repos := filterGroup_subset_repos st g' d (hfs' ▸ hdfs')
  have herepos : e ∈ st.repos := filterGroup_subset_repos st repo e (hfs ▸ he)
  have hde : d = e := eq_of_mem_of_fst_eq st.repos hwfr d e hdrepos herepos hdx
  have hpred' : cleanupGroupOf d.1 = some g' := group_pred st g' d (hfs' ▸ hdfs')
  have hpred : cleanupGroupOf e.1 = some repo := group_pred st repo e (hfs ▸ he)
  rw [hdx, hpred] at hpred'
  injection hpred' with hgg
  rw [← hgg, ← hfs] at hfs'
  rw [hfs', hde] at hdrop
  exact hnotdrop hdrop

/-- The sidecar of such a kept file is likewise not deleted by any group. -/
theorem kept_sidecar_not_deleted (st : DocStorage) (k : Nat) (repo : String)
    (fs : List (String × DocFile)) (hwfr : (st.repos.map Prod.fst).Nodup)
    (hg : tableGet (buildRepoGroups st) repo = some fs)
    (e : String × DocFile) (he : e ∈ fs)
    (hnotdrop : e ∉ (fs.mergeSort newestFirst).drop k) :
    sidecarName (mdStem e.1)
      ∉ (deletionList st k).map (fun d => sidecarName (mdStem d.1)) := by
  intro hmem
  obtain ⟨d, hd, hdx⟩ := List.mem_map.1 hmem
  have h1 := sidecarName_inj _ _ hdx
  obtain ⟨g', hdf, hpred', -⟩ := deletion_mem_filterGroup st k d hd
  have hdmd := (cleanupGroupOf_props d.1 g' hpred').1
  have hfs : fs = filterGroup st repo := buildRepoGroups_get_eq_filter st repo fs hg
  have hpred : cleanupGroupOf e.1 = some repo := group_pred st repo e (hfs ▸ he)
  have hemd := (cleanupGroupOf_props e.1 repo hpred).1
  have hname : d.1 = e.1 := mdStem_inj _ _ hdmd hemd h1
  exact kept_not_deleted st k repo fs hwfr hg e he hnotdrop
    (hname ▸ List.mem_map_of_mem Prod.fst hd)

/-! ## Claim C8 -/

/-- C8: for every keep_versions value and every storage state with distinct
filenames, `cleanup_old_files` leaves every latest marker file untouched, and
leaves every file of a repository group holding at most keep_versions artifact
files untouched. -/
theorem cleanup_safety (st : DocStorage) (k : Nat)
    (hwfr : (st.repos.map Prod.fst).Nodup) :
    (∀ name, strEnds name "_latest.md" = true →
       tableGet (cleanup_old_files st k).2.repos name = tableGet st.repos name) ∧
    (∀ g fs, tableGet (buildRepoGroups st) g = some fs → fs.length ≤ k →
       ∀ e, e ∈ fs → tableGet (cleanup_old_files st k).2.repos e.1 = some e.2) := by
  constructor
  · intro name hlat
    have hnot : name ∉ (deletionList st k).map Prod.fst := by
      intro hmem
      obtain ⟨d, hd, hdx⟩ := List.mem_map.1 hmem
      obtain ⟨g, -, hpred, -⟩ := deletion_mem_filterGroup st k d hd
      have hprops := cleanupGroupOf_props d.1 g hpred
      rw [hdx] at hprops
      rw [hprops.2] at hlat
      cases hlat
    rw [cleanup_eq_fold, removeOld_fold_repos_get, if_neg hnot]
  · intro g fs hg hlen e he
    have hfs : fs = filterGroup st g := buildRepoGroups_get_eq_filter st g fs hg
    have herepos : e ∈ st.repos := filterGroup_subset_repos st g e (hfs ▸ he)
    have hdropnil : (fs.mergeSort newestFirst).drop k = [] := by
      apply List.drop_eq_nil_of_le
      rw [List.length_mergeSort]
      exact hlen
    have hnot : e.1 ∉ (deletionList st k).map Prod.fst :=
      kept_not_deleted st k g fs hwfr hg e he (by rw [hdropnil]; exact List.not_mem_nil e)
    rw [cleanup_eq_fold, removeOld_fold_repos_get, if_neg hnot]
    exact tableGet_of_mem st.repos e herepos hwfr

/-- Witness for C8: a storage with one artifact and its latest marker, pruned
with keep_versions 3: both files survive with their contents. -/
theorem cleanup_safety_witness :
    tableGet (cleanup_old_files ⟨[("r_20250101_120000.md", ⟨"body", 5⟩),
        ("r_latest.md", ⟨"r_20250101_120000.md", 5⟩)], []⟩ 3).2.repos "r_latest.md"
      = some ⟨"r_20250101_120000.md", 5⟩ ∧
    tableGet (cleanup_old_files ⟨[("r_20250101_120000.md", ⟨"body", 5⟩),
        ("r_latest.md", ⟨"r_20250101_120000.md", 5⟩)], []⟩ 3).2.repos
        "r_20250101_120000.md"
      = some ⟨"body", 5⟩ := by
  have h := cleanup_safety ⟨[("r_20250101_120000.md", ⟨"body", 5⟩),
    ("r_latest.md", ⟨"r_20250101_120000.md", 5⟩)], []⟩ 3 (by decide)
  refine ⟨?_, ?_⟩
  · rw [h.1 "r_latest.md" (by decide)]
    decide
  · exact h.2 "r" [("r_20250101_120000.md", ⟨"body", 5⟩)] (by decide) (by decide)
      ("r_20250101_120000.md", ⟨"body", 5⟩) (by decide)

/-! ## Claim C4 -/

/-- C4: on a storage with distinct filenames whose repository group `repo` holds
`n > k` artifacts with distinct modification times, each with its metadata
sidecar, `cleanup_old_files k` removes exactly `n − k` artifacts and their
sidecars, keeps exactly `k` artifacts each with its sidecar intact, every
removed artifact is strictly older than every kept one, and the returned count
is the total number of files (artifacts plus sidecars) removed from storage. -/
theorem cleanup_retention (st : DocStorage) (k : Nat) (repo : String)
    (fs : List (String × DocFile))
    (hwfr : (st.repos.map Prod.fst).Nodup)
    (hwfm : (st.metadata.map Prod.fst).Nodup)
    (hg : tableGet (buildRepoGroups st) repo = some fs)
    (hn : k < fs.length)
    (hmt : ∀ e₁, e₁ ∈ fs → ∀ e₂, e₂ ∈ fs → e₁.2.mtime = e₂.2.mtime → e₁.1 = e₂.1)
    (hsc : ∀ e, e ∈ fs → tableHas st.metadata (sidecarName (mdStem e.1)) = true) :
    ((fs.mergeSort newestFirst).drop k).length = fs.length - k ∧
    ((fs.mergeSort newestFirst).take k).length = k ∧
    (∀ e, e ∈ (fs.mergeSort newestFirst).drop k →
       tableGet (cleanup_old_files st k).2.repos e.1 = none ∧
       tableGet (cleanup_old_files st k).2.metadata (sidecarName (mdStem e.1)) = none) ∧
    (∀ e, e ∈ (fs.mergeSort newestFirst).take k →
       tableGet (cleanup_old_files st k).2.repos e.1 = some e.2 ∧
       tableHas (cleanup_old_files st k).2.metadata (sidecarName (mdStem e.1)) = true) ∧
    (∀ r, r ∈ (fs.mergeSort newestFirst).drop k →
       ∀ q, q ∈ (fs.mergeSort newestFirst).take k → r.2.mtime < q.2.mtime) ∧
    (cleanup_old_files st k).1
      = (st.repos.length - (cleanup_old_files st k).2.repos.length)
        + (st.metadata.length - (cleanup_old_files st k).2.metadata.length) := by
  have hfs : fs = filterGroup st repo := buildRepoGroups_get_eq_filter st repo fs hg
  have hgmem : (repo, fs) ∈ buildRepoGroups st := mem_of_tableGet _ _ _ hg
  have hperm : (fs.mergeSort newestFirst).Perm fs := List.mergeSort_perm fs newestFirst
  have hlen_sorted : (fs.mergeSort newestFirst).length = fs.length :=
    List.length_mergeSort fs
  have hfs_names_nodup : (fs.map Prod.fst).Nodup := by
    rw [hfs]
    exact List.Nodup.sublist (List.Sublist.map _ (List.filter_sublist _)) hwfr
  have hsorted_names_nodup : ((fs.mergeSort newestFirst).map Prod.fst).Nodup :=
    (hperm.map Prod.fst).nodup_iff.2 hfs_names_nodup
  have hsplit_names : (fs.mergeSort newestFirst).map Prod.fst
      = ((fs.mergeSort newestFirst).take k).map Prod.fst
        ++ ((fs.mergeSort newestFirst).drop k).map Prod.fst := by
    rw [← List.map_append, List.take_append_drop]
  have hdisj : (((fs.mergeSort newestFirst).take k).map Prod.fst).Disjoint
      (((fs.mergeSort newestFirst).drop k).map Prod.fst) := by
    have h2 := hsorted_names_nodup
    rw [hsplit_names] at h2
    exact (List.nodup_append.1 h2).2.2
  have hkeptnotdrop : ∀ e, e ∈ (fs.mergeSort newestFirst).take k →
      e ∉ (fs.mergeSort newestFirst).drop k := by
    intro e het hed
    exact hdisj (List.mem_map_of_mem Prod.fst het) (List.mem_map_of_mem Prod.fst hed)
  have hdropdel : ∀ e, e ∈ (fs.mergeSort newestFirst).drop k → e ∈ deletionList st k := by
    intro e he
    exact (mem_deletionList st k e).2 ⟨repo, fs, hgmem, hn, he⟩
  have hmemfs_of_take : ∀ e, e ∈ (fs.mergeSort newestFirst).take k → e ∈ fs := by
    intro e he
    exact hperm.mem_iff.1 (List.Sublist.mem he (List.take_sublist k _))
  have hmemfs_of_drop : ∀ e, e ∈ (fs.mergeSort newestFirst).drop k → e ∈ fs := by
    intro e he
    exact hperm.mem_iff.1 (List.Sublist.mem he (List.drop_sublist k _))
  refine ⟨?_, ?_, ?_, ?_, ?_, ?_⟩
  · rw [List.length_drop, hlen_sorted]
  · rw [List.length_take, hlen_sorted]
    omega
  · intro e he
    constructor
    · rw [cleanup_eq_fold, removeOld_fold_repos_get,
        if_pos (List.mem_map_of_mem Prod.fst (hdropdel e he))]
    · rw [cleanup_eq_fold, removeOld_fold_metadata_get,
        if_pos (List.mem_map_of_mem _ (hdropdel e he))]
  · intro e he
    have hefs : e ∈ fs := hmemfs_of_take e he
    have herepos : e ∈ st.repos := filterGroup_subset_repos st repo e (hfs ▸ hefs)
    have hnot : e.1 ∉ (deletionList st k).map Prod.fst :=
      kept_not_deleted st k repo fs hwfr hg e hefs (hkeptnotdrop e he)
    have hnotsc : sidecarName (mdStem e.1)
        ∉ (deletionList st k).map (fun d => sidecarName (mdStem d.1)) :=
      kept_sidecar_not_deleted st k repo fs hwfr hg e hefs (hkeptnotdrop e he)
    constructor
    · rw [cleanup_eq_fold, removeOld_fold_repos_get, if_neg hnot]
      exact tableGet_of_mem st.repos e herepos hwfr
    · rw [cleanup_eq_fold]
      unfold tableHas
      rw [removeOld_fold_metadata_get, if_neg hnotsc]
      exact hsc e hefs
  · intro r hr q hq
    have hpairwise : (fs.mergeSort newestFirst).Pairwise
        (fun a b => newestFirst a b = true) := by
      apply List.sorted_mergeSort
      · intro a b c hab hbc
        simp only [newestFirst, decide_eq_true_eq] at *
        omega
      · intro a b
        simp only [newestFirst, Bool.or_eq_true, decide_eq_true_eq]
        omega
    rw [← List.take_append_drop k (fs.mergeSort newestFirst)] at hpairwise
    have hle := (List.pairwise_append.1 hpairwise).2.2 q hq r hr
    simp only [newestFirst, decide_eq_true_eq] at hle
    rcases Nat.lt_or_ge r.2.mtime q.2.mtime with h | h
    · exact h
    · exfalso
      have heq : r.2.mtime = q.2.mtime := le_antisymm hle h
      have hname := hmt r (hmemfs_of_drop r hr) q (hmemfs_of_take q hq) heq
      exact hdisj (hname ▸ List.mem_map_of_mem Prod.fst hq)
        (List.mem_map_of_mem Prod.fst hr)
  · have hdelnodup := deletionList_names_nodup st k hwfr
    have hscnodup : ((deletionList st k).map
        (fun d => sidecarName (mdStem d.1))).Nodup := by
      apply List.Nodup.map_on ?_ (List.Nodup.of_map Prod.fst hdelnodup)
      intro x hx y hy hxy
      have h1 := sidecarName_inj _ _ hxy
      obtain ⟨gx, hxf, hpx, -⟩ := deletion_mem_filterGroup st k x hx
      obtain ⟨gy, hyf, hpy, -⟩ := deletion_mem_filterGroup st k y hy
      have hxmd := (cleanupGroupOf_props x.1 gx hpx).1
      have hymd := (cleanupGroupOf_props y.1 gy hpy).1
      have hname : x.1 = y.1 := mdStem_inj _ _ hxmd hymd h1
      exact eq_of_mem_of_fst_eq st.repos hwfr x y
        (filterGroup_subset_repos st gx x hxf)
        (filterGroup_subset_repos st gy y hyf) hname
    have hpresent : ∀ d, d ∈ deletionList st k → tableHas st.repos d.1 = true := by
      intro d hd
      obtain ⟨g', hdf, -, -⟩ := deletion_mem_filterGroup st k d hd
      have h2 : d ∈ st.repos := filterGroup_subset_repos st g' d hdf
      simp [tableHas, tableGet_of_mem st.repos d h2 hwfr]
    have hN : ((deletionList st k).foldl removeOldFile (0, st)).2.repos.length
        + (deletionList st k).length = st.repos.length :=
      removeOld_fold_repos_length (deletionList st k) (0, st)
        hdelnodup hwfr hpresent
    have hM : ((deletionList st k).foldl removeOldFile (0, st)).2.metadata.length
        + ((deletionList st k).filter
            (fun d => tableHas st.metadata (sidecarName (mdStem d.1)))).length
        = st.metadata.length :=
      removeOld_fold_metadata_length (deletionList st k) (0, st) hscnodup hwfm
    have hC : ((deletionList st k).foldl removeOldFile (0, st)).1
        = 0 + (deletionList st k).length
          + ((deletionList st k).filter
              (fun d => tableHas st.metadata (sidecarName (mdStem d.1)))).length :=
      removeOld_fold_count (deletionList st k) (0, st) hscnodup
    rw [cleanup_eq_fold]
    omega

-- Witness for C4: with keep_versions 1 on three saved versions, the oldest
-- artifact is removed and the newest survives.
unseal List.merge List.mergeSort in
theorem cleanup_retention_witness :
    tableGet (cleanup_old_files cleanupDemoState 1).2.repos "r_20250101_120000.md"
      = none ∧
    tableGet (cleanup_old_files cleanupDemoState 1).2.repos "r_20250103_120000.md"
      = some ⟨"c", 3⟩ := by
  have h := cleanup_retention cleanupDemoState 1 "r" cleanupDemoGroup
    (by decide) (by decide) (by decide) (by decide) (by decide) (by decide)
  exact ⟨(h.2.2.1 ("r_20250101_120000.md", ⟨"a", 1⟩) (by decide)).1,
    (h.2.2.2.1 ("r_20250103_120000.md", ⟨"c", 3⟩) (by decide)).1⟩

end RagDoc
